import Mathlib

/-!
Shallow embedding of the reqwest-middleware-cache crate (src/lib.rs and
src/managers/cacache.rs) and proofs about the behaviour of its caching
decision engine, conditional revalidation state machine, and the reference
cacache storage adapter.

Modelling conventions:
* HTTP bodies are Lean `String`s (the crate test bodies are UTF-8 strings;
  `Response::text()`/`Response::bytes()` are identities on this carrier).
* Header maps (`http::HeaderMap`) are ordered association lists of
  lowercase-canonical header names to value strings.  `insert` replaces all
  values of a name, `append` adds an extra value, `get` returns the first
  value, `remove` drops every value of a name - exactly the `http` crate
  multimap semantics used by the source.
* The external Policy Evaluator (`http_cache_semantics`) is opaque to the
  core; a `CachePolicy` value carries the answers the evaluator would give
  to `before_request` / `after_response` / `is_storable` for the single
  exchange under consideration, mirroring the spec external contract.
* The network transport (`next.run`) is a function parameter returning
  `Except String Response`; `SystemTime::now` for `Warning` dates is an
  explicit `String` parameter.
* `cacache` + `bincode` storage is a key-to-blob association list; a blob is
  either a well-formed serialized `Store` or corrupt bytes (`Blob.corrupt`),
  which faithfully captures that `bincode::deserialize` fails exactly on
  blobs that are not serializations of a `Store`.
* Rust panics (`expect`/`unwrap`) surface as `Outc.panic` / `Option.none`.
-/

/-- HTTP request method (the subset the middleware distinguishes). -/
inductive Method where
  | GET
  | HEAD
  | POST
  | PUT
  | DELETE
deriving DecidableEq, Inhabited

/-- Rendering of a method by its Display impl, as used by req_key. -/
def Method.render : Method → String
  | .GET => "GET"
  | .HEAD => "HEAD"
  | .POST => "POST"
  | .PUT => "PUT"
  | .DELETE => "DELETE"

/-- The `CacheMode` enum of src/lib.rs (lines 65-92). -/
inductive CacheMode where
  | Default
  | NoStore
  | Reload
  | NoCache
  | ForceCache
  | OnlyIfCached
deriving DecidableEq, Inhabited

/-- The closed HTTP version enumeration of src/managers/cacache.rs
(lines 32-44); `reqwest::Response::version()` always lies in it here. -/
inductive HttpVersion where
  | http09
  | http10
  | http11
  | h2
  | h3
deriving DecidableEq, Inhabited

/-- A URL: its full Display rendering (used by `req_key`) and its host
(`Url::host()`, always present for http(s) URLs). -/
structure Url where
  full : String
  host : String
deriving DecidableEq, Inhabited

/-- A header map: ordered list of (lowercase name, value) pairs. -/
abbrev Headers := List (String × String)

/-- Model of `HeaderMap::get`: first value stored under a name. -/
def hGet : Headers → String → Option String
  | [], _ => none
  | (k, v) :: rest, n => if k == n then some v else hGet rest n

/-- Model of `HeaderMap::remove`: drop every value stored under the name. -/
def hRemove (hs : Headers) (n : String) : Headers :=
  hs.filter (fun p => !(p.1 == n))

/-- Model of `HeaderMap::insert`: replace all values of the name by the new value. -/
def hInsert (hs : Headers) (n v : String) : Headers :=
  hRemove hs n ++ [(n, v)]

/-- Model of `HeaderMap::append`: add one more value for the name. -/
def hAppend (hs : Headers) (n v : String) : Headers :=
  hs ++ [(n, v)]

/-- The names occurring in a header map, in order, with multiplicity. -/
def hNames (hs : Headers) : List String :=
  hs.map Prod.fst

/-- Every header name carries exactly one value. -/
def uniqueNames (hs : Headers) : Prop :=
  (hNames hs).Nodup

instance (hs : Headers) : Decidable (uniqueNames hs) :=
  inferInstanceAs (Decidable (hNames hs).Nodup)

/-- A `reqwest::Response`: status, headers, protocol version, final URL and
body (see the reference adapter `StoredResponse` for the same fields). -/
structure Response where
  status : Nat
  headers : Headers
  version : HttpVersion
  url : Url
  body : String
deriving DecidableEq, Inhabited

/-- A `reqwest::Request`.  `cloneable` models whether `try_clone()`
succeeds (it fails exactly for streaming bodies). -/
structure Request where
  method : Method
  url : Url
  headers : Headers
  cloneable : Bool
deriving DecidableEq, Inhabited

/-- Model of `StatusCode::is_server_error()`: 500..=599. -/
def is_server_error (s : Nat) : Bool :=
  (500 ≤ s) && (s ≤ 599)

/-- Prefix test on character lists (helper for substring search). -/
def isPrefixChars : List Char → List Char → Bool
  | [], _ => true
  | _ :: _, [] => false
  | a :: as, b :: bs => a == b && isPrefixChars as bs

/-- Substring test on character lists, mirroring the Rust `str::contains`. -/
def containsSub : List Char → List Char → Bool
  | n, [] => n.isEmpty
  | n, c :: rest => isPrefixChars n (c :: rest) || containsSub n rest

/-- Model of `str::to_lowercase` restricted to ASCII case mapping (header values and
names in this development are ASCII). -/
def lowerStr (s : String) : String :=
  ⟨s.data.map Char.toLower⟩

/-- Model of `must_revalidate` of src/lib.rs lines 314-323: the first
`Cache-Control` value, lowercased, contains `must-revalidate`. -/
def must_revalidate (res : Response) : Bool :=
  match hGet res.headers "cache-control" with
  | some v => containsSub "must-revalidate".data (lowerStr v).data
  | none => false

/-- Digit-string parse (all characters decimal digits, nonempty). -/
def parseDigits (cs : List Char) : Option Nat :=
  if !cs.isEmpty && cs.all Char.isDigit then
    some (cs.foldl (fun n c => n * 10 + (c.toNat - 48)) 0)
  else
    none

/-- the Rust `str::parse::<usize>()`: optional leading `+`, then digits. -/
def parse_usize (cs : List Char) : Option Nat :=
  match cs with
  | '+' :: rest => parseDigits rest
  | _ => parseDigits cs

/-- Model of `get_warning_code` of src/lib.rs lines 325-335: take the first three
characters of the first `Warning` value and parse them as a number. -/
def get_warning_code (res : Response) : Option Nat :=
  (hGet res.headers "warning").bind fun hdr => parse_usize (hdr.data.take 3)

/-- Model of `add_warning` of src/lib.rs lines 356-379: append a `Warning`
value of shape code, space, host, space, quoted message, space, quoted
date (the Rust debug quoting of the message is modelled as plain quoting;
only the leading code is ever parsed back). -/
def add_warning (res : Response) (uri : Url) (code : Nat) (message : String)
    (now : String) : Response :=
  { res with
    headers := hAppend res.headers "warning"
      (Nat.repr code ++ " " ++ uri.host ++ " \"" ++ message ++ "\" \"" ++
        now ++ "\"") }

/-- The answer `CachePolicy::before_request` gives for the one exchange
under consideration: `Fresh` with response parts to apply, or `Stale` with
request parts and the `matches` flag. -/
inductive BeforeAnswer where
  | fresh (parts : Headers)
  | stale (parts : Headers) (matched : Bool)
deriving DecidableEq, Inhabited

/-- The opaque evaluator policy, modelled by the answers it returns:
`base` answers `before_request` only; `step` additionally carries the
header parts and successor policy its `after_response` returns (both the
`Modified` and `NotModified` arms of src/lib.rs lines 232-241 are treated
identically by the source, so the distinction is dropped). -/
inductive CachePolicy where
  | base (before : BeforeAnswer) (storable : Bool)
  | step (before : BeforeAnswer) (storable : Bool) (afterParts : Headers)
      (next : CachePolicy)
deriving DecidableEq, Inhabited

/-- Model of `CachePolicy::before_request` (evaluator answer). -/
def before_request : CachePolicy → BeforeAnswer
  | .base b _ => b
  | .step b _ _ _ => b

/-- Model of `CachePolicy::after_response` (evaluator answer): the new policy and
the response parts to apply. -/
def after_response : CachePolicy → CachePolicy × Headers
  | .base b s => (.base b s, [])
  | .step _ _ parts next => (next, parts)

/-- Model of `CachePolicy::is_storable` (evaluator answer). -/
def is_storable : CachePolicy → Bool
  | .base _ s => s
  | .step _ s _ _ => s

/-- The `StoredResponse` record of src/managers/cacache.rs lines 79-86.
`headers` is the serialized `HashMap<String, String>` (single value per
name, modelled as the association list `to_store` produced). -/
structure StoredResponse where
  body : String
  headers : List (String × String)
  status : Nat
  url : Url
  version : HttpVersion
deriving DecidableEq, Inhabited

/-- The `Store` record persisted by the reference adapter
(src/managers/cacache.rs lines 73-77). -/
structure Store where
  response : StoredResponse
  policy : CachePolicy
deriving DecidableEq, Inhabited

/-- A raw blob held by cacache: either the bincode serialization of a
`Store`, or corrupt bytes on which `bincode::deserialize` fails. -/
inductive Blob where
  | good (s : Store)
  | corrupt
deriving DecidableEq, Inhabited

/-- Model of `bincode::deserialize::<Store>` on a blob. -/
def bincode_deserialize : Blob → Option Store
  | .good s => some s
  | .corrupt => none

/-- The error message surfaced when `bincode::deserialize(&d)?` fails in
the adapter `get` (src/managers/cacache.rs line 141). -/
def bincode_error_msg : String := "bincode deserialization error"

/-- The cacache on-disk state: key to blob. -/
abbrev CacheState := List (String × Blob)

/-- Model of `cacache::read`: the blob stored under a key, if any. -/
def stateRead (st : CacheState) (k : String) : Option Blob :=
  (st.find? (fun p => p.1 == k)).map Prod.snd

/-- Model of `cacache::write`: store a blob under a key (replacing any old entry). -/
def stateWrite (st : CacheState) (k : String) (b : Blob) : CacheState :=
  (k, b) :: st.filter (fun p => !(p.1 == k))

/-- Model of `cacache::remove`: drop the entry under a key (no-op when absent). -/
def stateRemove (st : CacheState) (k : String) : CacheState :=
  st.filter (fun p => !(p.1 == k))

/-- Model of `req_key` of src/managers/cacache.rs lines 124-126: the
rendered method, a colon, and the rendered URL. -/
def req_key (req : Request) : String :=
  req.method.render ++ ":" ++ req.url.full

/-- Model of `HashMap::insert` on an association-list map: replace the value when
the key is present, append otherwise. -/
def mapInsert (m : List (String × String)) (k v : String) :
    List (String × String) :=
  if m.any (fun p => p.1 == k) then
    m.map (fun p => if p.1 == k then (k, v) else p)
  else
    m ++ [(k, v)]

/-- The header collapse `to_store` performs (src/managers/cacache.rs
lines 89-92): fold every (name, value) pair of the header map into a
`HashMap<String, String>`; for repeated names the last value wins. -/
def collapseHeaders (hs : Headers) : List (String × String) :=
  hs.foldl (fun m p => mapInsert m p.1 p.2) []

/-- Model of `to_store` of src/managers/cacache.rs lines 88-107 (total here: header
values are strings and the version enum is closed). -/
def to_store (res : Response) (policy : CachePolicy) : Store :=
  { response :=
    { body := res.body
      headers := collapseHeaders res.headers
      status := res.status
      url := res.url
      version := res.version }
    policy := policy }

/-- A `HeaderName::from_lowercase` validity check (simplified to the usual
token characters): nonempty, lowercase letters, digits, dash, underscore. -/
def valid_header_name (s : String) : Bool :=
  !s.isEmpty && s.data.all fun c =>
    (97 ≤ c.toNat && c.toNat ≤ 122) || (48 ≤ c.toNat && c.toNat ≤ 57) ||
      c.toNat == 45 || c.toNat == 95

/-- A `HeaderValue::from_str` validity check: visible characters plus
space and horizontal tab. -/
def valid_header_value (s : String) : Bool :=
  s.data.all fun c => c.toNat == 9 || (32 ≤ c.toNat && !(c.toNat == 127))

/-- The header-reconstruction loop of `from_store`
(src/managers/cacache.rs lines 115-120): insert each stored pair under
`HeaderName::from_lowercase(name.to_lowercase())?` /
`HeaderValue::from_str(value)?`. -/
def from_store_headers (acc : Headers) :
    List (String × String) → Except String Headers
  | [] => .ok acc
  | (n, v) :: rest =>
    if valid_header_name (lowerStr n) && valid_header_value v then
      from_store_headers (hInsert acc (lowerStr n) v) rest
    else
      .error "invalid header in stored entry"

/-- Model of `from_store` of src/managers/cacache.rs lines 109-122. -/
def from_store (store : Store) : Except String Response :=
  match from_store_headers [] store.response.headers with
  | .error e => .error e
  | .ok hs =>
    .ok
      { status := store.response.status
        headers := hs
        version := store.response.version
        url := store.response.url
        body := store.response.body }

/-- Model of `CacheManager::get` for `CACacheManager`
(src/managers/cacache.rs lines 139-147): a failed `cacache::read` becomes
`Ok(None)`; a failed `bincode::deserialize` or `from_store` is propagated
through `?` as a hard error. -/
def manager_get (st : CacheState) (req : Request) :
    Except String (Option (Response × CachePolicy)) :=
  match stateRead st (req_key req) with
  | none => .ok none
  | some blob =>
    match bincode_deserialize blob with
    | none => .error bincode_error_msg
    | some store =>
      match from_store store with
      | .error e => .error e
      | .ok res => .ok (some (res, store.policy))

/-- The rebuild loop of the adapter `put` (src/managers/cacache.rs
lines 163-167): iterating an owned `HeaderMap` yields the name only at its
first occurrence (later values of the same name come with `None`), and the
source calls `.unwrap()` on it.  `none` models that panic. -/
def rebuildGo (seen : List String) (acc : Headers) :
    Headers → Option Headers
  | [] => some acc
  | (n, v) :: rest =>
    if n ∈ seen then none
    else rebuildGo (n :: seen) (hInsert acc n v) rest

/-- Header rebuild performed by `put` on the returned response. -/
def rebuildHeaders (hs : Headers) : Option Headers :=
  rebuildGo [] [] hs

/-- Model of `CacheManager::put` for `CACacheManager`
(src/managers/cacache.rs lines 150-170): serialize and write the store,
then rebuild a response from the captured status/url/version/headers and
the stored body.  The write happens before the rebuild, so a rebuild panic
(`none`) still leaves the entry persisted. -/
def manager_put (st : CacheState) (req : Request) (res : Response)
    (policy : CachePolicy) : CacheState × Option Response :=
  let data := to_store res policy
  let st1 := stateWrite st (req_key req) (Blob.good data)
  match rebuildHeaders res.headers with
  | none => (st1, none)
  | some hs =>
    (st1, some
      { status := res.status
        headers := hs
        version := res.version
        url := res.url
        body := data.response.body })

/-- Model of `CacheManager::delete` for `CACacheManager`
(src/managers/cacache.rs lines 172-175). -/
def manager_delete (st : CacheState) (req : Request) : CacheState :=
  stateRemove st (req_key req)

/-- Outcome of a middleware invocation: a response, a propagated
`reqwest_middleware::Error` (its message), or a Rust panic. -/
inductive Outc where
  | ok (res : Response)
  | err (msg : String)
  | panic
deriving DecidableEq, Inhabited

/-- Result of running a piece of the middleware: the outcome, the cacache
state afterwards, and how many `put` calls the storage manager served. -/
structure RunResult where
  out : Outc
  state : CacheState
  puts : Nat
deriving DecidableEq, Inhabited

/-- The middleware error raised when `try_clone()` fails
(src/lib.rs lines 196-200 and 290-294). -/
def clone_err_msg : String :=
  "Request object is not clonable. Are you passing a streaming body?"

/-- The placeholder URL a `reqwest::Response` converted from a bare
`http::Response` carries (no `url` extension is set on the spliced
response or the synthesized 504). -/
def defaultUrl : Url :=
  { full := "http://no.url.provided.local/", host := "no.url.provided.local" }

/-- Insert every pair of `parts` into a header map, in order. -/
def insertAllH (hs parts : Headers) : Headers :=
  parts.foldl (fun acc p => hInsert acc p.1 p.2) hs

/-- Append every pair of `new` to a header map, in order. -/
def appendAllH (hs new : Headers) : Headers :=
  new.foldl (fun acc p => hAppend acc p.1 p.2) hs

/-- Model of `update_request_headers` of src/lib.rs lines 337-347: insert each part
header under its lowercased name. -/
def update_request_headers (parts : Headers) (req : Request) : Request :=
  { req with
    headers := parts.foldl (fun acc p => hInsert acc (lowerStr p.1) p.2)
      req.headers }

/-- Model of `update_response_headers` of src/lib.rs lines 349-354: insert each
part header into the response. -/
def update_response_headers (parts : Headers) (res : Response) : Response :=
  { res with headers := insertAllH res.headers parts }

/-- The network transport behind `next.run`. -/
abbrev Transport := Request → Except String Response

/-- The `CachePolicy::new` computation of the external evaluator. -/
abbrev NewPolicy := Request → Response → CachePolicy

/-- Model of `remote_fetch` of src/lib.rs lines 284-311: clone the request, run the
transport, compute a fresh policy, store a storable 200 GET/HEAD exchange,
delete the key on mutating methods, and pass other responses through. -/
def remote_fetch (mode : CacheMode) (np : NewPolicy) (tr : Transport)
    (st : CacheState) (req : Request) : RunResult :=
  if !req.cloneable then ⟨.err clone_err_msg, st, 0⟩
  else
    match tr req with
    | .error e => ⟨.err e, st, 0⟩
    | .ok res =>
      let is_gh := req.method == Method.GET || req.method == Method.HEAD
      let policy := np req res
      let cacheable := (mode != CacheMode.NoStore) && is_gh &&
        (res.status == 200) && is_storable policy
      if cacheable then
        match manager_put st req res policy with
        | (st1, none) => ⟨.panic, st1, 1⟩
        | (st1, some r) => ⟨.ok r, st1, 1⟩
      else if !is_gh then ⟨.ok res, manager_delete st req, 0⟩
      else ⟨.ok res, st, 0⟩

/-- The request `conditional_fetch` actually sends: the evaluator stale
request parts are merged in when `matches` is set
(src/lib.rs lines 187-195). -/
def condReq (parts : Headers) (matched : Bool) (req : Request) : Request :=
  if matched then update_request_headers parts req else req

/-- The 304 splice of src/lib.rs lines 216-241: build a response with the
conditional-response status and the cached body (a 304 carries no body),
append every conditional-response header, then apply the evaluator
after-response parts.  Its version/URL are the `http::Response` builder
defaults. -/
def spliceResponse (cached cond : Response) (afterParts : Headers) :
    Response :=
  update_response_headers afterParts
    { status := cond.status
      headers := appendAllH [] cond.headers
      version := HttpVersion.http11
      url := defaultUrl
      body := cached.body }

/-- Model of `conditional_fetch` of src/lib.rs lines 173-282. -/
def conditional_fetch (mode : CacheMode) (np : NewPolicy) (tr : Transport)
    (now : String) (st : CacheState) (req : Request) (cached_res : Response)
    (policy : CachePolicy) : RunResult :=
  match before_request policy with
  | .fresh parts => ⟨.ok (update_response_headers parts cached_res), st, 0⟩
  | .stale parts matched =>
    let req1 := condReq parts matched req
    if !req1.cloneable then ⟨.err clone_err_msg, st, 0⟩
    else
      let r := remote_fetch mode np tr st req1
      match r.out with
      | .panic => r
      | .err e =>
        if must_revalidate cached_res then ⟨.err e, r.state, r.puts⟩
        else
          ⟨.ok (add_warning
              (add_warning cached_res req1.url 111 "Revalidation failed" now)
              req1.url 199 ("Miscellaneous Warning " ++ e) now),
            r.state, r.puts⟩
      | .ok cond_res =>
        if is_server_error cond_res.status && must_revalidate cached_res then
          ⟨.ok (add_warning cached_res req1.url 111 "Revalidation failed" now),
            r.state, r.puts⟩
        else if cond_res.status == 304 then
          let spliced := spliceResponse cached_res cond_res
            (after_response policy).2
          match manager_put r.state req1 spliced (after_response policy).1 with
          | (st1, none) => ⟨.panic, st1, r.puts + 1⟩
          | (st1, some out) => ⟨.ok out, st1, r.puts + 1⟩
        else ⟨.ok cached_res, r.state, r.puts⟩

/-- The RFC 7234 warning cleanup the dispatcher applies to a cached
response on lookup (src/lib.rs lines 121-136): if the parsed code of the
first `Warning` value lies in 100..199, the whole `Warning` header is
removed. -/
def strip_warnings (res : Response) : Response :=
  match get_warning_code res with
  | some c =>
    if 100 ≤ c && c < 200 then
      { res with headers := hRemove res.headers "warning" }
    else res
  | none => res

/-- The synthesized `504 Gateway Timeout` ENOTCACHED response
(src/lib.rs lines 161-167). -/
def gateway_timeout_res : Response :=
  { status := 504, headers := [], version := HttpVersion.http11,
    url := defaultUrl, body := "" }

/-- Model of `Cache::run` of src/lib.rs lines 105-171: the cache mode dispatcher. -/
def Cache.run (mode : CacheMode) (np : NewPolicy) (tr : Transport)
    (now : String) (st : CacheState) (req : Request) : RunResult :=
  let is_cacheable := (req.method == Method.GET || req.method == Method.HEAD)
    && (mode != CacheMode.NoStore) && (mode != CacheMode.Reload)
  if !is_cacheable then remote_fetch mode np tr st req
  else
    match manager_get st req with
    | .error e => ⟨.err e, st, 0⟩
    | .ok (some (res0, policy)) =>
      let res := strip_warnings res0
      if mode == CacheMode.Default then
        conditional_fetch mode np tr now st req res policy
      else if mode == CacheMode.NoCache then
        conditional_fetch mode np tr now st
          { req with headers := hInsert req.headers "cache-control" "no-cache" }
          res policy
      else if mode == CacheMode.ForceCache || mode == CacheMode.OnlyIfCached then
        ⟨.ok (add_warning res req.url 112 "Disconnected operation" now), st, 0⟩
      else remote_fetch mode np tr st req
    | .ok none =>
      if mode == CacheMode.OnlyIfCached then ⟨.ok gateway_timeout_res, st, 0⟩
      else remote_fetch mode np tr st req

/-! ### Header-map lemmas -/

theorem hGet_hRemove_self (hs : Headers) (n : String) :
    hGet (hRemove hs n) n = none := by
  induction hs with
  | nil => rfl
  | cons p rest ih =>
    rcases p with ⟨k, v⟩
    by_cases h : k = n
    · simpa [hRemove, List.filter_cons, h] using ih
    · simpa [hRemove, List.filter_cons, h, hGet] using ih

theorem hGet_hRemove_ne (hs : Headers) (n n' : String) (h : n' ≠ n) :
    hGet (hRemove hs n) n' = hGet hs n' := by
  induction hs with
  | nil => rfl
  | cons p rest ih =>
    rcases p with ⟨k, v⟩
    by_cases hk : k = n
    · subst hk
      simpa [hRemove, List.filter_cons, hGet, Ne.symm h] using ih
    · simp only [hRemove, List.filter_cons] at *
      by_cases hk' : k = n'
      · simp [hk, hk', hGet, h]
      · simpa [hk, hk', hGet] using ih

theorem hGet_append_of_none (hs : Headers) (n v : String)
    (h : hGet hs n = none) : hGet (hs ++ [(n, v)]) n = some v := by
  induction hs with
  | nil => simp [hGet]
  | cons p rest ih =>
    rcases p with ⟨k, w⟩
    by_cases hk : k = n
    · simp [hGet, hk] at h
    · simp [hGet, hk] at h ⊢
      exact ih h

theorem hGet_hInsert_self (hs : Headers) (n v : String) :
    hGet (hInsert hs n v) n = some v :=
  hGet_append_of_none _ _ _ (hGet_hRemove_self hs n)

theorem hGet_hInsert_ne (hs : Headers) (n v n' : String) (h : n' ≠ n) :
    hGet (hInsert hs n v) n' = hGet hs n' := by
  have h2 : hGet (hRemove hs n ++ [(n, v)]) n' = hGet (hRemove hs n) n' := by
    induction hRemove hs n with
    | nil => simp [hGet, Ne.symm h]
    | cons p rest ih =>
      rcases p with ⟨k, w⟩
      by_cases hk : k = n'
      · simp [hGet, hk]
      · simpa [hGet, hk] using ih
  rw [hInsert, h2, hGet_hRemove_ne hs n n' h]

theorem hNames_sublist_hRemove (hs : Headers) (n : String) :
    (hNames (hRemove hs n)).Sublist (hNames hs) :=
  List.Sublist.map Prod.fst (List.filter_sublist hs)

theorem not_mem_hNames_hRemove (hs : Headers) (n : String) :
    n ∉ hNames (hRemove hs n) := by
  intro hmem
  rcases List.mem_map.mp hmem with ⟨p, hp, hfst⟩
  have := List.of_mem_filter hp
  simp [hfst] at this

theorem uniqueNames_hInsert (hs : Headers) (n v : String)
    (h : uniqueNames hs) : uniqueNames (hInsert hs n v) := by
  have hrem : (hNames (hRemove hs n)).Nodup :=
    (hNames_sublist_hRemove hs n).nodup h
  have : hNames (hInsert hs n v) = hNames (hRemove hs n) ++ [n] := by
    simp [hInsert, hNames]
  rw [uniqueNames, this]
  refine List.Nodup.append hrem (List.nodup_singleton n) ?_
  intro a ha hb
  rw [List.mem_singleton] at hb
  exact not_mem_hNames_hRemove hs n (hb ▸ ha)

theorem hGet_insertAllH_not_mem (parts : Headers) (hs : Headers) (n : String)
    (h : n ∉ parts.map Prod.fst) :
    hGet (insertAllH hs parts) n = hGet hs n := by
  induction parts generalizing hs with
  | nil => rfl
  | cons p rest ih =>
    simp only [List.map_cons, List.mem_cons] at h
    push_neg at h
    show hGet (insertAllH (hInsert hs p.1 p.2) rest) n = hGet hs n
    rw [ih _ h.2, hGet_hInsert_ne _ _ _ _ h.1]

theorem hGet_insertAllH_mem (parts : Headers) (hs : Headers) (n v : String)
    (hnd : (parts.map Prod.fst).Nodup) (hmem : (n, v) ∈ parts) :
    hGet (insertAllH hs parts) n = some v := by
  induction parts generalizing hs with
  | nil => cases hmem
  | cons p rest ih =>
    rcases List.mem_cons.mp hmem with heq | hmem'
    · subst heq
      have hn : n ∉ rest.map Prod.fst := by
        simpa using (List.nodup_cons.mp hnd).1
      show hGet (insertAllH (hInsert hs n v) rest) n = some v
      rw [hGet_insertAllH_not_mem _ _ _ hn, hGet_hInsert_self]
    · exact ih _ (List.nodup_cons.mp hnd).2 hmem'

theorem uniqueNames_insertAllH (parts : Headers) (hs : Headers)
    (h : uniqueNames hs) : uniqueNames (insertAllH hs parts) := by
  induction parts generalizing hs with
  | nil => exact h
  | cons p rest ih =>
    exact ih _ (uniqueNames_hInsert hs p.1 p.2 h)

theorem hAppend_eq (hs : Headers) (n v : String) :
    hAppend hs n v = hs ++ [(n, v)] := rfl

theorem appendAllH_eq (new : Headers) (hs : Headers) :
    appendAllH hs new = hs ++ new := by
  induction new generalizing hs with
  | nil => simp [appendAllH]
  | cons p rest ih =>
    show appendAllH (hAppend hs p.1 p.2) rest = hs ++ p :: rest
    rw [ih, hAppend_eq]
    simp

theorem hInsert_of_not_mem (hs : Headers) (n v : String)
    (h : n ∉ hNames hs) : hInsert hs n v = hs ++ [(n, v)] := by
  have : hRemove hs n = hs := by
    apply List.filter_eq_self.mpr
    intro p hp
    have : p.1 ≠ n := fun he => h (List.mem_map.mpr ⟨p, hp, he⟩)
    simpa using this
  rw [hInsert, this]

/-! ### Storage-adapter lemmas -/

theorem hNames_cons (n v : String) (rest : Headers) :
    hNames ((n, v) :: rest) = n :: hNames rest := rfl

theorem rebuildGo_eq_some (hs : Headers) :
    ∀ (seen : List String) (acc : Headers),
    (hNames hs).Nodup → (∀ n ∈ hNames hs, n ∉ seen) →
    (∀ n ∈ hNames hs, n ∉ hNames acc) →
    rebuildGo seen acc hs = some (acc ++ hs) := by
  induction hs with
  | nil => intro seen acc _ _ _; simp [rebuildGo]
  | cons p rest ih =>
    intro seen acc hnd hseen hacc
    rcases p with ⟨n, v⟩
    rw [hNames_cons, List.nodup_cons] at hnd
    rw [hNames_cons] at hseen hacc
    have hn_seen : n ∉ seen := hseen n (List.mem_cons_self n _)
    have hn_acc : n ∉ hNames acc := hacc n (List.mem_cons_self n _)
    rw [show rebuildGo seen acc ((n, v) :: rest)
        = if n ∈ seen then none
          else rebuildGo (n :: seen) (hInsert acc n v) rest from rfl,
      if_neg hn_seen, hInsert_of_not_mem acc n v hn_acc,
      ih (n :: seen) (acc ++ [(n, v)]) hnd.2
        (by
          intro m hm
          simp only [List.mem_cons]
          push_neg
          exact ⟨fun he => hnd.1 (he ▸ hm),
            hseen m (List.mem_cons_of_mem n hm)⟩)
        (by
          intro m hm
          have h1 : m ∉ hNames acc := hacc m (List.mem_cons_of_mem n hm)
          have h2 : m ≠ n := fun he => hnd.1 (he ▸ hm)
          simp only [hNames, List.map_append, List.mem_append, List.map_cons,
            List.map_nil, List.mem_singleton]
          push_neg
          exact ⟨h1, h2⟩)]
    simp

theorem rebuildHeaders_unique (hs : Headers) (h : uniqueNames hs) :
    rebuildHeaders hs = some hs := by
  have := rebuildGo_eq_some hs [] [] h (by simp) (by simp [hNames])
  simpa [rebuildHeaders] using this

theorem rebuildGo_none_iff (hs : Headers) :
    ∀ (seen : List String) (acc : Headers),
    (rebuildGo seen acc hs = none ↔
      ¬ ((hNames hs).Nodup ∧ ∀ n ∈ hNames hs, n ∉ seen)) := by
  induction hs with
  | nil => intro seen acc; simp [rebuildGo, hNames]
  | cons p rest ih =>
    intro seen acc
    rcases p with ⟨n, v⟩
    rw [show rebuildGo seen acc ((n, v) :: rest)
        = if n ∈ seen then none
          else rebuildGo (n :: seen) (hInsert acc n v) rest from rfl,
      hNames_cons]
    by_cases hn : n ∈ seen
    · rw [if_pos hn]
      constructor
      · rintro _ ⟨_, hmem⟩
        exact hmem n (List.mem_cons_self n _) hn
      · intro _
        rfl
    · rw [if_neg hn, ih (n :: seen) (hInsert acc n v)]
      apply not_congr
      constructor
      · rintro ⟨hnd, hmem⟩
        have hn_rest : n ∉ hNames rest := by
          intro hmm
          have := hmem n hmm
          simp at this
        refine ⟨List.nodup_cons.mpr ⟨hn_rest, hnd⟩, ?_⟩
        intro m hm
        rcases List.mem_cons.mp hm with heq | hm'
        · exact heq ▸ hn
        · exact fun hs2 => (hmem m hm') (List.mem_cons_of_mem n hs2)
      · rintro ⟨hnd, hmem⟩
        have hcons := List.nodup_cons.mp hnd
        refine ⟨hcons.2, ?_⟩
        intro m hm hmm
        rcases List.mem_cons.mp hmm with heq | hm2
        · exact hcons.1 (heq ▸ hm)
        · exact (hmem m (List.mem_cons_of_mem n hm)) hm2

theorem collapse_step (hs : Headers) :
    ∀ (acc : List (String × String)),
    (hNames hs).Nodup → (∀ n ∈ hNames hs, n ∉ acc.map Prod.fst) →
    hs.foldl (fun m p => mapInsert m p.1 p.2) acc = acc ++ hs := by
  induction hs with
  | nil => intro acc _ _; simp
  | cons p rest ih =>
    intro acc hnd hdisj
    rcases p with ⟨n, v⟩
    rw [hNames_cons, List.nodup_cons] at hnd
    rw [hNames_cons] at hdisj
    have hn_acc : n ∉ acc.map Prod.fst := hdisj n (List.mem_cons_self n _)
    have hmap : mapInsert acc n v = acc ++ [(n, v)] := by
      rw [mapInsert, if_neg]
      simp only [List.any_eq_true]
      push_neg
      intro q hq
      have : q.1 ≠ n := fun he => hn_acc (List.mem_map.mpr ⟨q, hq, he⟩)
      simpa using this
    rw [List.foldl_cons, hmap,
      ih (acc ++ [(n, v)]) hnd.2
        (by
          intro m hm
          have h1 : m ∉ acc.map Prod.fst := hdisj m (List.mem_cons_of_mem n hm)
          have h2 : m ≠ n := fun he => hnd.1 (he ▸ hm)
          simp only [List.map_append, List.mem_append, List.map_cons,
            List.map_nil, List.mem_singleton]
          push_neg
          exact ⟨h1, h2⟩)]
    simp

theorem collapse_unique (hs : Headers) (h : uniqueNames hs) :
    collapseHeaders hs = hs := by
  have := collapse_step hs [] h (by simp)
  simpa [collapseHeaders] using this

theorem manager_put_eq (st : CacheState) (req : Request) (res : Response)
    (policy : CachePolicy) (h : uniqueNames res.headers) :
    manager_put st req res policy
      = (stateWrite st (req_key req) (Blob.good (to_store res policy)),
          some res) := by
  rw [manager_put]
  rw [rebuildHeaders_unique res.headers h]
  rfl

theorem from_store_headers_ok (hs : List (String × String)) :
    ∀ (acc : Headers),
    (∀ p ∈ hs, lowerStr p.1 = p.1) →
    (∀ p ∈ hs, valid_header_name p.1 = true) →
    (∀ p ∈ hs, valid_header_value p.2 = true) →
    (hs.map Prod.fst).Nodup →
    (∀ n ∈ hs.map Prod.fst, n ∉ hNames acc) →
    from_store_headers acc hs = .ok (acc ++ hs) := by
  induction hs with
  | nil => intro acc _ _ _ _ _; simp [from_store_headers]
  | cons p rest ih =>
    intro acc hlow hvn hvv hnd hdisj
    rcases p with ⟨n, v⟩
    have hlow1 : lowerStr n = n := hlow (n, v) (List.mem_cons_self _ _)
    have hn_acc : n ∉ hNames acc :=
      hdisj n (by simp)
    rw [List.map_cons, List.nodup_cons] at hnd
    rw [List.map_cons] at hdisj
    rw [show from_store_headers acc ((n, v) :: rest)
        = if valid_header_name (lowerStr n) && valid_header_value v then
            from_store_headers (hInsert acc (lowerStr n) v) rest
          else .error "invalid header in stored entry" from rfl]
    rw [hlow1, if_pos]
    · rw [hInsert_of_not_mem acc n v hn_acc,
        ih (acc ++ [(n, v)])
          (fun q hq => hlow q (List.mem_cons_of_mem _ hq))
          (fun q hq => hvn q (List.mem_cons_of_mem _ hq))
          (fun q hq => hvv q (List.mem_cons_of_mem _ hq))
          hnd.2
          (by
            intro m hm
            have h1 : m ∉ hNames acc :=
              hdisj m (by simp [List.mem_cons_of_mem, hm])
            have h2 : m ≠ n := fun he => hnd.1 (he ▸ hm)
            simp only [hNames, List.map_append, List.mem_append, List.map_cons,
              List.map_nil, List.mem_singleton]
            push_neg
            exact ⟨h1, h2⟩)]
      simp
    · rw [hvn (n, v) (List.mem_cons_self _ _), hvv (n, v) (List.mem_cons_self _ _)]
      rfl

theorem from_store_to_store (res : Response) (policy : CachePolicy)
    (hu : uniqueNames res.headers)
    (hlow : ∀ p ∈ res.headers, lowerStr p.1 = p.1)
    (hvn : ∀ p ∈ res.headers, valid_header_name p.1 = true)
    (hvv : ∀ p ∈ res.headers, valid_header_value p.2 = true) :
    from_store (to_store res policy) = .ok res := by
  have hc : collapseHeaders res.headers = res.headers := collapse_unique _ hu
  rw [from_store]
  have : (to_store res policy).response.headers = res.headers := hc
  rw [show (to_store res policy).response.headers = collapseHeaders res.headers
      from rfl, hc,
    from_store_headers_ok res.headers [] hlow hvn hvv hu (by simp [hNames])]
  rfl

/-! ### Core-flow lemmas -/

theorem remote_fetch_pass (mode : CacheMode) (np : NewPolicy) (tr : Transport)
    (st : CacheState) (req : Request) (res : Response)
    (hclone : req.cloneable = true)
    (hgh : req.method = Method.GET ∨ req.method = Method.HEAD)
    (htr : tr req = .ok res) (hstatus : res.status ≠ 200) :
    remote_fetch mode np tr st req = ⟨.ok res, st, 0⟩ := by
  have hgh' : (req.method == Method.GET || req.method == Method.HEAD) = true := by
    rcases hgh with h | h <;> simp [h]
  have hs' : (res.status == 200) = false := by
    simpa using hstatus
  rw [remote_fetch, hclone]
  simp only [Bool.not_true, Bool.false_eq_true, if_false, htr, hgh', hs',
    Bool.and_false, Bool.false_and, Bool.and_true, Bool.true_and,
    Bool.not_true, if_false]

theorem conditional_fetch_304 (mode : CacheMode) (np : NewPolicy)
    (tr : Transport) (now : String) (st : CacheState) (req : Request)
    (cached : Response) (parts : Headers) (matched : Bool) (sb : Bool)
    (aparts : Headers) (nextPol : CachePolicy) (condRes : Response)
    (hclone : (condReq parts matched req).cloneable = true)
    (hgh : (condReq parts matched req).method = Method.GET ∨
      (condReq parts matched req).method = Method.HEAD)
    (htr : tr (condReq parts matched req) = .ok condRes)
    (hstatus : condRes.status = 304)
    (hu : uniqueNames condRes.headers) :
    conditional_fetch mode np tr now st req cached
        (CachePolicy.step (BeforeAnswer.stale parts matched) sb aparts nextPol)
      = ⟨.ok (spliceResponse cached condRes aparts),
          stateWrite st (req_key (condReq parts matched req))
            (Blob.good (to_store (spliceResponse cached condRes aparts)
              nextPol)),
          1⟩ := by
  have husp : uniqueNames (spliceResponse cached condRes aparts).headers := by
    rw [spliceResponse, update_response_headers]
    apply uniqueNames_insertAllH
    rw [appendAllH_eq]
    simpa using hu
  rw [conditional_fetch]
  simp only [before_request]
  rw [remote_fetch_pass mode np tr st (condReq parts matched req) condRes
    hclone hgh htr (by rw [hstatus]; decide)]
  rw [hclone]
  simp only [Bool.not_true, Bool.false_eq_true, if_false, hstatus]
  rw [show (is_server_error 304 && must_revalidate cached) = false from by
    rfl]
  simp only [Bool.false_eq_true, if_false]
  rw [show ((304 : Nat) == 304) = true from rfl]
  simp only [if_true]
  rw [show after_response
      (CachePolicy.step (BeforeAnswer.stale parts matched) sb aparts nextPol)
      = (nextPol, aparts) from rfl]
  rw [manager_put_eq st (condReq parts matched req)
    (spliceResponse cached condRes aparts) nextPol husp]

/-! ### Warning round-trip lemmas -/

set_option maxRecDepth 100000 in
theorem repr_parse_3digit :
    ∀ c, c < 1000 → 100 ≤ c →
    (Nat.repr c).data.length = 3 ∧ parse_usize ((Nat.repr c).data) = some c := by
  decide

theorem hGet_add_warning_of_none (res : Response) (uri : Url) (code : Nat)
    (message now : String) (h : hGet res.headers "warning" = none) :
    hGet (add_warning res uri code message now).headers "warning"
      = some (Nat.repr code ++ " " ++ uri.host ++ " \"" ++ message ++ "\" \"" ++
          now ++ "\"") := by
  rw [add_warning]
  exact hGet_append_of_none res.headers "warning" _ h

theorem take3_of_len3 (a r : List Char) (h : a.length = 3) :
    (a ++ r).take 3 = a := by
  rw [← h, List.take_left]

/-! ### Concrete fixtures -/

/-- Example URL fixture. -/
def urlEx : Url := { full := "https://example.com/", host := "example.com" }

/-- A plain clonable GET request fixture. -/
def reqGet : Request :=
  { method := .GET, url := urlEx, headers := [], cloneable := true }

/-- A plain clonable POST request to the same URL. -/
def reqPost : Request :=
  { method := .POST, url := urlEx, headers := [], cloneable := true }

/-- A cached 200 response whose Cache-Control carries must-revalidate. -/
def cachedMustReval : Response :=
  { status := 200, headers := [("cache-control", "must-revalidate")],
    version := .http11, url := urlEx, body := "cached-body" }

/-- A cached 200 response without must-revalidate (only a validator). -/
def cachedPlain : Response :=
  { status := 200, headers := [("etag", "\"v1\"")],
    version := .http11, url := urlEx, body := "cached-body" }

/-- A 500 Internal Server Error response from the network. -/
def serverError : Response :=
  { status := 500, headers := [], version := .http11, url := urlEx,
    body := "server error" }

/-- A 200 OK network response fixture. -/
def okResponse : Response :=
  { status := 200, headers := [], version := .http11, url := urlEx,
    body := "ok" }

/-- An evaluator answer forcing the stale path with no conditional parts. -/
def staleAnswer : CachePolicy := .base (.stale [] false) true

/-- A trivial policy constructor for the remote fetch gateway. -/
def npTrivial : NewPolicy := fun _ _ => .base (.fresh []) false

/-- The cached exchange stored for the GET key in fixtures. -/
def storedExchange : Store := to_store cachedPlain staleAnswer

/-- A cache already holding the GET entry for the example URL. -/
def stGet : CacheState :=
  [("GET:https://example.com/", Blob.good storedExchange)]

/-! ### Claim theorems -/

set_option maxRecDepth 1000000 in
/-- Claim C1 (code bug evaluation).  The claim (and the spec) say: when a
revalidation round-trip completes with a 5xx response and the cached
response carries must-revalidate, conditional_fetch returns the
server-error response from the network.  At this failing input (stale
cached GET with Cache-Control: must-revalidate, transport answering 500)
the code instead returns the stale cached response with Warning 111
appended - the must_revalidate guard selects the stale-fallback branch
rather than failing closed. -/
theorem C1_five_xx_must_revalidate_returns_stale :
    (conditional_fetch .Default npTrivial (fun _ => .ok serverError) "date"
        [] reqGet cachedMustReval staleAnswer).out
      = .ok (add_warning cachedMustReval urlEx 111 "Revalidation failed"
          "date")
    ∧ (conditional_fetch .Default npTrivial (fun _ => .ok serverError) "date"
        [] reqGet cachedMustReval staleAnswer).out ≠ .ok serverError := by
  constructor
  · decide
  · decide

set_option maxRecDepth 1000000 in
/-- Claim C2 (code bug evaluation).  The claim (and the spec) say: when a
revalidation round-trip completes with a 5xx response and the cached
response does not carry must-revalidate, conditional_fetch returns the
stale response with Warning 111 appended.  At this failing input the code
returns the stale cached response completely unchanged - no Warning header
at all - because the Warning-111 branch is guarded by must_revalidate
being present. -/
theorem C2_five_xx_without_must_revalidate_no_warning :
    (conditional_fetch .Default npTrivial (fun _ => .ok serverError) "date"
        [] reqGet cachedPlain staleAnswer).out = .ok cachedPlain
    ∧ hGet cachedPlain.headers "warning" = none := by
  constructor
  · decide
  · decide

set_option maxRecDepth 1000000 in
/-- Claim C4 (code bug evaluation).  The claim (and the spec) say a
successful POST to a previously cached GET key deletes the GET entry.  At
this failing input the cache holds the entry under key
GET:https://example.com/ and a successful POST to the same URL runs
through remote_fetch; the delete uses req_key of the POST request,
POST:https://example.com/, so the GET entry survives untouched and the
state is unchanged. -/
theorem C4_post_leaves_get_entry :
    (remote_fetch .Default npTrivial (fun _ => .ok okResponse) stGet
        reqPost).out = .ok okResponse
    ∧ (remote_fetch .Default npTrivial (fun _ => .ok okResponse) stGet
        reqPost).state = stGet
    ∧ stateRead (remote_fetch .Default npTrivial (fun _ => .ok okResponse)
        stGet reqPost).state "GET:https://example.com/"
      = some (Blob.good storedExchange)
    ∧ req_key reqPost = "POST:https://example.com/" := by
  refine ⟨by decide, by decide, by decide, by decide⟩

/-- A cached response carrying a 1xx Warning entry followed by a 2xx one. -/
def warnedFirst1xx : Response :=
  { status := 200,
    headers := [("warning", "110 example.com \"Response is stale\""),
      ("warning", "214 example.com \"Transformation applied\"")],
    version := .http11, url := urlEx, body := "b" }

/-- A cached response carrying a 2xx Warning entry followed by a 1xx one. -/
def warnedFirst2xx : Response :=
  { status := 200,
    headers := [("warning", "214 example.com \"Transformation applied\""),
      ("warning", "110 example.com \"Response is stale\"")],
    version := .http11, url := urlEx, body := "b" }

set_option maxRecDepth 1000000 in
/-- Claim C6 (code bug evaluation).  The claim (and the RFC quote in the
source) say the dispatcher removes exactly the Warning entries with a 1xx
code and retains every 2xx entry.  The code only parses the code of the
first Warning value and then removes the whole Warning header: with a 110
entry first, the 214 entry is removed as well (headers become empty); with
a 214 entry first, the trailing 110 entry is retained. -/
theorem C6_strip_warnings_all_or_nothing :
    get_warning_code warnedFirst1xx = some 110
    ∧ (strip_warnings warnedFirst1xx).headers = []
    ∧ strip_warnings warnedFirst2xx = warnedFirst2xx := by
  refine ⟨by decide, by decide, by decide⟩

set_option maxRecDepth 1000000 in
/-- Claim C5 (counterexample).  The claim says a stored entry that cannot
be deserialized is treated as absence (None) and never propagated as a
hard error.  With a corrupt blob stored under the GET key, the adapter
get propagates the bincode failure as a hard error instead of None. -/
theorem C5_corrupt_entry_hard_error :
    manager_get [(req_key reqGet, Blob.corrupt)] reqGet
      = .error bincode_error_msg
    ∧ manager_get [(req_key reqGet, Blob.corrupt)] reqGet
      ≠ .ok none := by
  constructor
  · rfl
  · intro h
    rw [show manager_get [(req_key reqGet, Blob.corrupt)] reqGet
        = .error bincode_error_msg from rfl] at h
    exact Except.noConfusion h

/-- Claim C5 (amended).  The adapter get returns None exactly when the
underlying cacache read fails (missing entry); a present entry whose
bincode deserialization fails is propagated as a hard error through the
question-mark operator, not treated as absence. -/
theorem C5_get_missing_none_corrupt_error (st : CacheState) (req : Request) :
    (stateRead st (req_key req) = none → manager_get st req = .ok none)
    ∧ (stateRead st (req_key req) = some Blob.corrupt →
        manager_get st req = .error bincode_error_msg) := by
  constructor
  · intro h
    rw [manager_get, h]
  · intro h
    rw [manager_get, h]
    rfl

set_option maxRecDepth 1000000 in
/-- Witness for C5: evaluated on an empty cache (missing entry gives
None) and on a cache holding a corrupt blob (hard error). -/
theorem C5_get_missing_none_corrupt_error_witness :
    manager_get [] reqGet = .ok none
    ∧ manager_get [(req_key reqGet, Blob.corrupt)] reqGet
      = .error bincode_error_msg :=
  ⟨(C5_get_missing_none_corrupt_error [] reqGet).1 (by decide),
    (C5_get_missing_none_corrupt_error [(req_key reqGet, Blob.corrupt)]
      reqGet).2 (by decide)⟩

/-- A response that already carries a Warning entry with code 299. -/
def preWarned : Response :=
  { status := 200, headers := [("warning", "299 example.com \"misc\"")],
    version := .http11, url := urlEx, body := "b" }

set_option maxRecDepth 1000000 in
/-- Claim C7 (counterexample).  The claim quantifies over every response:
but add_warning appends, while get_warning_code reads the first Warning
value, so on a response already carrying Warning 299 the round trip
returns 299, not the freshly added 111. -/
theorem C7_roundtrip_counterexample :
    get_warning_code
        (add_warning preWarned urlEx 111 "Revalidation failed" "date")
      = some 299
    ∧ some (299 : Nat) ≠ some (111 : Nat) := by
  constructor
  · decide
  · decide

/-- Claim C7 (amended).  For every response with no preexisting Warning
header, every host, every 3-digit code and every message, reading the
warning code right after appending a warning returns exactly that code. -/
theorem C7_roundtrip_fresh_warning (res : Response) (uri : Url) (code : Nat)
    (message now : String)
    (hnone : hGet res.headers "warning" = none)
    (hlo : 100 ≤ code) (hhi : code ≤ 999) :
    get_warning_code (add_warning res uri code message now) = some code := by
  have h3 := repr_parse_3digit code (by omega) hlo
  rw [get_warning_code,
    hGet_add_warning_of_none res uri code message now hnone]
  rw [Option.some_bind]
  have hdata : (Nat.repr code ++ " " ++ uri.host ++ " \"" ++ message ++
      "\" \"" ++ now ++ "\"").data
      = (Nat.repr code).data ++ (" " ++ uri.host ++ " \"" ++ message ++
        "\" \"" ++ now ++ "\"").data := by
    simp only [String.data_append, List.append_assoc]
  rw [hdata, take3_of_len3 _ _ h3.1, h3.2]

/-- Witness for C7: evaluated on a cached response without any Warning
header, host example.com, code 111. -/
theorem C7_roundtrip_fresh_warning_witness :
    get_warning_code
        (add_warning cachedPlain urlEx 111 "Revalidation failed" "date")
      = some 111 :=
  C7_roundtrip_fresh_warning cachedPlain urlEx 111 "Revalidation failed"
    "date" (by decide) (by decide) (by decide)

/-- A response whose header map holds two values for one name. -/
def dupHeaderRes : Response :=
  { status := 200, headers := [("set-cookie", "a=1"), ("set-cookie", "b=2")],
    version := .http11, url := urlEx, body := "b" }

set_option maxRecDepth 1000000 in
/-- Claim C8 (counterexample).  The claim quantifies over every response:
but on a response with a repeated header name the adapter put panics while
rebuilding the returned response (the header-name option of the repeated
name is None and is unwrapped), after having already persisted the entry -
so no response identical to the persisted record is returned. -/
theorem C8_put_duplicate_name_panics :
    (manager_put [] reqGet dupHeaderRes staleAnswer).2 = none
    ∧ stateRead (manager_put [] reqGet dupHeaderRes staleAnswer).1
        (req_key reqGet)
      = some (Blob.good (to_store dupHeaderRes staleAnswer)) := by
  constructor
  · decide
  · decide

/-- Claim C8 (amended).  For every request, response with a single value
per (lowercase, valid) header name, and policy: put persists the
serialized exchange under the request key and returns exactly the
response that from_store would reconstruct from the persisted record -
equal in status, headers, version, URL and body. -/
theorem C8_put_roundtrip (st : CacheState) (req : Request) (res : Response)
    (policy : CachePolicy)
    (hu : uniqueNames res.headers)
    (hlow : ∀ p ∈ res.headers, lowerStr p.1 = p.1)
    (hvn : ∀ p ∈ res.headers, valid_header_name p.1 = true)
    (hvv : ∀ p ∈ res.headers, valid_header_value p.2 = true) :
    manager_put st req res policy
      = (stateWrite st (req_key req) (Blob.good (to_store res policy)),
          some res)
    ∧ from_store (to_store res policy) = .ok res :=
  ⟨manager_put_eq st req res policy hu,
    from_store_to_store res policy hu hlow hvn hvv⟩

set_option maxRecDepth 1000000 in
/-- Witness for C8: evaluated on the plain cached response (one etag
header) and the stale policy fixture. -/
theorem C8_put_roundtrip_witness :
    manager_put [] reqGet cachedPlain staleAnswer
      = (stateWrite [] (req_key reqGet)
          (Blob.good (to_store cachedPlain staleAnswer)), some cachedPlain)
    ∧ from_store (to_store cachedPlain staleAnswer) = .ok cachedPlain :=
  C8_put_roundtrip [] reqGet cachedPlain staleAnswer (by decide) (by decide)
    (by decide) (by decide)

/-- Claim C10.  For every request, response and policy: the adapter put
panics while rebuilding the returned response exactly when some header
name holds more than one value; with a single value per name it completes
without panic. -/
theorem C10_put_panics_iff_duplicate (st : CacheState) (req : Request)
    (res : Response) (policy : CachePolicy) :
    (manager_put st req res policy).2 = none ↔ ¬ uniqueNames res.headers := by
  cases h : rebuildHeaders res.headers with
  | none =>
    have h2 : (manager_put st req res policy).2 = none := by
      simp [manager_put, h]
    rw [h2]
    have hnu : ¬ uniqueNames res.headers := by
      intro hu
      rw [rebuildHeaders_unique res.headers hu] at h
      exact Option.noConfusion h
    simp [hnu]
  | some hs =>
    have h2 : (manager_put st req res policy).2 = some
        { status := res.status, headers := hs, version := res.version,
          url := res.url, body := (to_store res policy).response.body } := by
      simp [manager_put, h]
    rw [h2]
    constructor
    · intro hc
      exact Option.noConfusion hc
    · intro hnu
      exfalso
      have hnone : rebuildHeaders res.headers = none := by
        rw [rebuildHeaders]
        exact (rebuildGo_none_iff res.headers [] []).mpr
          (fun hc => hnu hc.1)
      rw [h] at hnone
      exact Option.noConfusion hnone

/-- Claim C3 (amended).  For every stale cached exchange whose
conditional revalidation returns 304 Not Modified with single-valued
header names (transport succeeds, the sent request is clonable GET/HEAD,
the after-response parts are single-valued too), conditional_fetch
returns a response whose body equals the original cached body and whose
headers carry every after-response header part of the evaluator, the run
performs exactly one put, and the persisted blob is the spliced response
together with the new policy.  The single-valued restriction is forced by
the duplicate-name counterexample, where put panics instead. -/
theorem C3_stale_304_splice (mode : CacheMode) (np : NewPolicy)
    (tr : Transport) (now : String) (st : CacheState) (req : Request)
    (cached : Response) (parts : Headers) (matched : Bool) (sb : Bool)
    (aparts : Headers) (nextPol : CachePolicy) (condRes : Response)
    (hclone : (condReq parts matched req).cloneable = true)
    (hgh : (condReq parts matched req).method = Method.GET ∨
      (condReq parts matched req).method = Method.HEAD)
    (htr : tr (condReq parts matched req) = .ok condRes)
    (hstatus : condRes.status = 304)
    (hu : uniqueNames condRes.headers)
    (hap : uniqueNames aparts) :
    ∃ out : Response,
      conditional_fetch mode np tr now st req cached
          (CachePolicy.step (BeforeAnswer.stale parts matched) sb aparts
            nextPol)
        = ⟨.ok out,
            stateWrite st (req_key (condReq parts matched req))
              (Blob.good (to_store out nextPol)), 1⟩
      ∧ out.body = cached.body
      ∧ (∀ n v, (n, v) ∈ aparts → hGet out.headers n = some v) := by
  refine ⟨spliceResponse cached condRes aparts,
    conditional_fetch_304 mode np tr now st req cached parts matched sb
      aparts nextPol condRes hclone hgh htr hstatus hu, rfl, ?_⟩
  intro n v hmem
  exact hGet_insertAllH_mem aparts (appendAllH [] condRes.headers) n v hap
    hmem

/-- A 304 Not Modified conditional response carrying a new etag. -/
def cond304 : Response :=
  { status := 304, headers := [("etag", "\"v2\"")], version := .http11,
    url := urlEx, body := "" }

/-- The stale-with-validator policy answering 304 reconciliation. -/
def polStale304 : CachePolicy :=
  CachePolicy.step (BeforeAnswer.stale [("if-none-match", "\"v1\"")] true)
    true [("etag", "\"v2\"")] (CachePolicy.base (BeforeAnswer.fresh []) true)

set_option maxRecDepth 1000000 in
/-- Witness for C3: a stale cached exchange with an if-none-match
conditional part, a transport answering 304 with a new etag, and an
after-response part carrying the new etag. -/
theorem C3_stale_304_splice_witness :
    ∃ out : Response,
      conditional_fetch CacheMode.Default npTrivial
          (fun _ => .ok cond304)
          "date" [] reqGet cachedPlain
          polStale304
        = ⟨.ok out,
            stateWrite []
              (req_key (condReq [("if-none-match", "\"v1\"")] true reqGet))
              (Blob.good (to_store out
                (CachePolicy.base (BeforeAnswer.fresh []) true))), 1⟩
      ∧ out.body = cachedPlain.body
      ∧ (∀ n v, (n, v) ∈ ([("etag", "\"v2\"")] : Headers) →
          hGet out.headers n = some v) :=
  C3_stale_304_splice CacheMode.Default npTrivial
    (fun _ => .ok cond304)
    "date" [] reqGet cachedPlain [("if-none-match", "\"v1\"")] true true
    [("etag", "\"v2\"")] (CachePolicy.base (BeforeAnswer.fresh []) true)
    cond304
    (by decide) (Or.inl (by decide)) rfl rfl (by decide) (by decide)

/-- Claim C9 (amended).  For every stale cached exchange whose
conditional revalidation returns 304 Not Modified with single-valued
header names, the response handed back to the caller carries status 304 -
copied from the conditional response - and not the cached 200.  The
single-valued restriction is forced by the duplicate-name counterexample,
where put panics and nothing is returned. -/
theorem C9_304_status_copied (mode : CacheMode) (np : NewPolicy)
    (tr : Transport) (now : String) (st : CacheState) (req : Request)
    (cached : Response) (parts : Headers) (matched : Bool) (sb : Bool)
    (aparts : Headers) (nextPol : CachePolicy) (condRes : Response)
    (hclone : (condReq parts matched req).cloneable = true)
    (hgh : (condReq parts matched req).method = Method.GET ∨
      (condReq parts matched req).method = Method.HEAD)
    (htr : tr (condReq parts matched req) = .ok condRes)
    (hstatus : condRes.status = 304)
    (hu : uniqueNames condRes.headers)
    (hcached : cached.status = 200) :
    ∃ out : Response,
      (conditional_fetch mode np tr now st req cached
          (CachePolicy.step (BeforeAnswer.stale parts matched) sb aparts
            nextPol)).out = .ok out
      ∧ out.status = 304
      ∧ out.status ≠ cached.status := by
  refine ⟨spliceResponse cached condRes aparts, ?_, hstatus, ?_⟩
  · rw [conditional_fetch_304 mode np tr now st req cached parts matched sb
      aparts nextPol condRes hclone hgh htr hstatus hu]
  · rw [hcached]
    show condRes.status ≠ 200
    rw [hstatus]
    decide

set_option maxRecDepth 1000000 in
/-- Witness for C9: the same stale-plus-304 scenario as the C3 witness,
with the cached response at status 200. -/
theorem C9_304_status_copied_witness :
    ∃ out : Response,
      (conditional_fetch CacheMode.Default npTrivial
          (fun _ => .ok cond304)
          "date" [] reqGet cachedPlain
          polStale304).out = .ok out
      ∧ out.status = 304
      ∧ out.status ≠ cachedPlain.status :=
  C9_304_status_copied CacheMode.Default npTrivial
    (fun _ => .ok cond304)
    "date" [] reqGet cachedPlain [("if-none-match", "\"v1\"")] true true
    [("etag", "\"v2\"")] (CachePolicy.base (BeforeAnswer.fresh []) true)
    cond304
    (by decide) (Or.inl (by decide)) rfl rfl (by decide) (by decide)

/-- A 304 Not Modified response carrying a repeated Via header name. -/
def cond304dupVia : Response :=
  { status := 304, headers := [("via", "1.1 proxy-a"), ("via", "1.1 proxy-b")],
    version := .http11, url := urlEx, body := "" }

/-- A 304 Not Modified response carrying a repeated Set-Cookie name. -/
def cond304dupCookie : Response :=
  { status := 304, headers := [("set-cookie", "a=1"), ("set-cookie", "b=2")],
    version := .http11, url := urlEx, body := "" }

set_option maxRecDepth 1000000 in
/-- Claim C3 (counterexample).  The claim quantifies over every stale
cached exchange revalidated with a 304: but when the 304 carries a
repeated header name (legal HTTP, here two Via values) that the
after-response parts do not override, the spliced response reaching the
adapter put repeats the name and put panics on the header-name unwrap
after persisting - conditional_fetch returns no response at all, so no
returned body can equal the cached body. -/
theorem C3_304_duplicate_header_panics :
    (conditional_fetch .Default npTrivial (fun _ => .ok cond304dupVia)
        "date" [] reqGet cachedPlain polStale304).out = .panic
    ∧ ∀ res : Response,
        (conditional_fetch .Default npTrivial (fun _ => .ok cond304dupVia)
          "date" [] reqGet cachedPlain polStale304).out ≠ .ok res := by
  constructor
  · decide
  · intro res h
    rw [show (conditional_fetch .Default npTrivial
        (fun _ => .ok cond304dupVia) "date" [] reqGet cachedPlain
        polStale304).out = .panic from by decide] at h
    exact Outc.noConfusion h

set_option maxRecDepth 1000000 in
/-- Claim C9 (counterexample).  The claim quantifies over every stale
cached exchange revalidated with a 304: but when the 304 repeats a header
name (here two Set-Cookie values), the adapter put panics while rebuilding
the response to return, so conditional_fetch hands back no response and in
particular no response with status 304. -/
theorem C9_304_duplicate_header_panics :
    (conditional_fetch .Default npTrivial (fun _ => .ok cond304dupCookie)
        "date" [] reqGet cachedPlain polStale304).out = .panic
    ∧ ∀ res : Response,
        (conditional_fetch .Default npTrivial (fun _ => .ok cond304dupCookie)
          "date" [] reqGet cachedPlain polStale304).out ≠ .ok res := by
  constructor
  · decide
  · intro res h
    rw [show (conditional_fetch .Default npTrivial
        (fun _ => .ok cond304dupCookie) "date" [] reqGet cachedPlain
        polStale304).out = .panic from by decide] at h
    exact Outc.noConfusion h
